import Mathlib

/-!
Verification of the rust-shell command interpreter (src/main.rs).

The file shallowly embeds the pure core of the program: the tokenizer
state machine, the redirection-aware command-context parser, the builtin
dispatcher, the pipeline executor, and the autocomplete engine.  Stateful
and OS-facing behaviour (printing, spawning processes, changing
directory, opening redirection files) is modelled by an explicit effect
trace, and the ambient OS state (HOME, current directory, PATH
resolution, behaviour of external executables) by an `Env` record.
Panics of the Rust code (out-of-bounds indexing, `unwrap`, `expect`) are
modelled by `Option`: a `none` result means the corresponding execution
panics.
-/

/-- The single-quote character, written via its code point. -/
def squote : Char := Char.ofNat 39

/-- The builtin name list `SHELL_BUILTINS` from the source. -/
def SHELL_BUILTINS : List String := ["exit", "echo", "type", "pwd", "cd"]

/-- Flush the `current` accumulator into the token list if it is
non-empty; used when a separating space is met and at end of input. -/
def flushTok (toks : List String) (cur : List Char) : List String :=
  if cur.isEmpty then toks else toks ++ [String.mk cur]

/-- Worker loop of `tokenize`: one step per character, mirroring the Rust
`while let Some(c) = chars.next()` loop.  `cur` is the `current`
accumulator, `inS`/`inD` the two quoting flags.  The backslash case
peeks at the next character exactly as the Rust code does.  In the
double-quote branch, a backslash before a non-escapable character
pushes the backslash and leaves the peeked character unconsumed; here
that next step is unrolled: with `inD = true` and the peeked character
not one of the four escapable characters, the following loop iteration
necessarily falls into the default arm and appends it. -/
def tokenizeAux : List Char → List String → List Char → Bool → Bool → List String
  | [], toks, cur, _, _ => flushTok toks cur
  | c :: rest, toks, cur, inS, inD =>
    if c = squote ∧ inD = false then
      tokenizeAux rest toks cur (!inS) inD
    else if c = '"' ∧ inS = false then
      tokenizeAux rest toks cur inS (!inD)
    else if c = '\\' ∧ inS = false then
      match rest with
      | [] => flushTok toks cur
      | n :: rest2 =>
        if inD then
          if n = '\\' ∨ n = '"' ∨ n = '$' ∨ n = '\n' then
            tokenizeAux rest2 toks (cur ++ [n]) inS inD
          else
            tokenizeAux rest2 toks (cur ++ ['\\', n]) inS inD
        else
          tokenizeAux rest2 toks (cur ++ [n]) inS inD
    else if c = ' ' ∧ inS = false ∧ inD = false then
      if cur.isEmpty then tokenizeAux rest toks cur inS inD
      else tokenizeAux rest (toks ++ [String.mk cur]) [] inS inD
    else
      tokenizeAux rest toks (cur ++ [c]) inS inD

/-- `tokenize` from the source: split an input line into word tokens,
honouring single quotes, double quotes and backslash escapes. -/
def tokenize (input : String) : List String :=
  tokenizeAux input.data [] [] false false

/-- A redirection target: file path plus append-vs-truncate mode. -/
structure Redir where
  path : String
  append : Bool
deriving DecidableEq

/-- The state of the `CommandContext::parse` loop: the locals
`final_argv`, `stdout_path`, `append_stdout`, `stderr_path`,
`append_stderr`. -/
structure ParseState where
  argv : List String
  stdoutPath : Option String
  appendStdout : Bool
  stderrPath : Option String
  appendStderr : Bool
deriving DecidableEq

/-- Set the stdout redirection fields of a parse state. -/
def ParseState.setOut (st : ParseState) (p : Option String) (a : Bool) : ParseState :=
  { st with stdoutPath := p, appendStdout := a }

/-- Set the stderr redirection fields of a parse state. -/
def ParseState.setErr (st : ParseState) (p : Option String) (a : Bool) : ParseState :=
  { st with stderrPath := p, appendStderr := a }

/-- The scan loop of `CommandContext::parse`.  A redirection operator
consumes itself and the following token (`tokens.get(i + 1)`, which is
absent for a trailing operator, in which case the recorded path becomes
`none`); every other token is appended to `final_argv`. -/
def parseAux : List String → ParseState → ParseState
  | [], st => st
  | t :: rest, st =>
    if t = ">" ∨ t = "1>" then
      match rest with
      | [] => st.setOut none false
      | p :: rest2 => parseAux rest2 (st.setOut (some p) false)
    else if t = ">>" ∨ t = "1>>" then
      match rest with
      | [] => st.setOut none true
      | p :: rest2 => parseAux rest2 (st.setOut (some p) true)
    else if t = "2>" then
      match rest with
      | [] => st.setErr none false
      | p :: rest2 => parseAux rest2 (st.setErr (some p) false)
    else if t = "2>>" then
      match rest with
      | [] => st.setErr none true
      | p :: rest2 => parseAux rest2 (st.setErr (some p) true)
    else
      parseAux rest { st with argv := st.argv ++ [t] }

/-- The parsed command context: argv plus at most one redirection per
stream.  The Rust struct holds opened `File`s; the model keeps the
path/mode pair and emits the file opening as an effect at execution
time. -/
structure CommandContext where
  argv : List String
  stdoutRedir : Option Redir
  stderrRedir : Option Redir
deriving DecidableEq

/-- `CommandContext::parse` from the source. -/
def CommandContext.parse (tokens : List String) : CommandContext :=
  let st := parseAux tokens ⟨[], none, false, none, false⟩
  ⟨st.argv, st.stdoutPath.map (fun p => ⟨p, st.appendStdout⟩),
    st.stderrPath.map (fun p => ⟨p, st.appendStderr⟩)⟩




/-! ## Execution model

The OS-facing behaviour of the shell is captured by an effect trace and
an environment record.  `Option` models Rust panics: `none` means the
execution panics (`unwrap`, `expect`, out-of-bounds indexing). -/

/-- Where a spawned process writes its standard output: inherited
terminal, a pipe to the next stage, or an opened redirection file. -/
inductive SpawnOut where
  | inherit : SpawnOut
  | piped : SpawnOut
  | file : Redir → SpawnOut
deriving DecidableEq

/-- One observable action of the shell process. -/
inductive Eff where
  | termOut : String → Eff
  | fileWrite : String → Bool → String → Eff
  | openRedir : String → Bool → Eff
  | spawn : String → List String → Option String → SpawnOut → Option Redir → Eff
  | chdir : String → Eff
  | setRaw : Bool → Eff
deriving DecidableEq

/-- The ambient OS state: HOME, the current directory, PATH resolution
(`find_in_path` in the source), existence of directories for `cd`, and
the input-to-output behaviour of external executables (used when a
spawned process with inherited or piped stdout produces bytes). -/
structure Env where
  home : String
  cwd : String
  find_in_path : String → Option String
  dirExists : String → Bool
  extBehavior : String → List String → String → String

/-- Kernel-reducible counterparts of the string-library operations the
source uses; each works on the underlying character list. -/
def strStartsWith (s p : String) : Bool := p.data.isPrefixOf s.data

/-- Whether `p` is a suffix of `s` (character-list based). -/
def strEndsWith (s p : String) : Bool := p.data.reverse.isPrefixOf s.data.reverse

/-- Drop the first `n` characters of a string. -/
def strDrop (s : String) (n : Nat) : String := String.mk (s.data.drop n)

/-- Whether a string contains a given character. -/
def strContains (s : String) (c : Char) : Bool := s.data.contains c

/-- Trim leading and trailing whitespace (Rust `str::trim`). -/
def strTrim (s : String) : String :=
  String.mk (((s.data.dropWhile Char.isWhitespace).reverse.dropWhile
    Char.isWhitespace).reverse)

/-- Join strings with a separator (Rust `slice::join`). -/
def strJoin (sep : String) (l : List String) : String :=
  String.mk (List.intercalate sep.data (l.map String.data))

/-- Worker for `strSplitOn`: split a character list at every occurrence
of the separator (Rust `str::split`, which yields empty pieces between
adjacent separators and at the ends). -/
def splitCharAux (sep : Char) : List Char → List Char → List (List Char)
  | [], cur => [cur.reverse]
  | c :: rest, cur =>
    if c = sep then cur.reverse :: splitCharAux sep rest []
    else splitCharAux sep rest (c :: cur)

/-- Split a string on a separator character. -/
def strSplitOn (s : String) (sep : Char) : List String :=
  (splitCharAux sep s.data []).map String.mk

/-- The file-opening side effects of `CommandContext::parse`
(`OpenOptions::open` for each recorded redirection, stdout first). -/
def openEffs (ctx : CommandContext) : List Eff :=
  (ctx.stdoutRedir.map (fun r => Eff.openRedir r.path r.append)).toList ++
    (ctx.stderrRedir.map (fun r => Eff.openRedir r.path r.append)).toList

/-- `std::path::Path::join` on Unix: an absolute right operand replaces
the base path; otherwise the operand is appended after a separator. -/
def pathJoin (base p : String) : String :=
  if strStartsWith p "/" then p
  else if strEndsWith base "/" then base ++ p
  else base ++ "/" ++ p

/-- The target path computed by the `cd` builtin: no argument means
HOME; an argument with a leading tilde is stripped of the tilde and
joined onto HOME with `Path::join`; anything else is used verbatim. -/
def cdTarget (home : String) (arg : Option String) : String :=
  match arg with
  | none => home
  | some a => if strStartsWith a "~" then pathJoin home (strDrop a 1) else a

/-- Dispatch of `execute_command` after tokenizing and parsing: the body
of the `match command.as_str()` block.  Returns `none` when the code
panics (indexing `ctx.argv[0]` of an empty argv). -/
def execCtx (env : Env) (ctx : CommandContext) : Option (List Eff × Bool) :=
  match ctx.argv with
  | [] => none
  | command :: args =>
    let opens := openEffs ctx
    if command = "exit" then
      some (opens ++ [Eff.setRaw false], false)
    else if command = "echo" then
      let out := strJoin " " args
      match ctx.stdoutRedir with
      | some r => some (opens ++ [Eff.fileWrite r.path r.append (out ++ "\n")], true)
      | none => some (opens ++ [Eff.termOut (out ++ "\n")], true)
    else if command = "type" then
      match args.head? with
      | none => some (opens, true)
      | some query =>
        let res :=
          if SHELL_BUILTINS.contains query then query ++ " is a shell builtin"
          else
            match env.find_in_path query with
            | some fullPath => query ++ " is " ++ fullPath
            | none => query ++ ": not found"
        match ctx.stdoutRedir with
        | some r => some (opens ++ [Eff.fileWrite r.path r.append (res ++ "\n")], true)
        | none => some (opens ++ [Eff.termOut (res ++ "\n")], true)
    else if command = "pwd" then
      some (opens ++ [Eff.termOut (env.cwd ++ "\n")], true)
    else if command = "cd" then
      let target := cdTarget env.home args.head?
      if env.dirExists target then
        some (opens ++ [Eff.chdir target], true)
      else
        some (opens ++
          [Eff.termOut ("cd: " ++ (args.head?.getD "~") ++ ": No such file or directory\n")], true)
    else
      match env.find_in_path command with
      | some _ =>
        let stdoutDest := match ctx.stdoutRedir with
          | some r => SpawnOut.file r
          | none => SpawnOut.inherit
        some (opens ++ [Eff.spawn command args none stdoutDest ctx.stderrRedir], true)
      | none =>
        some (opens ++ [Eff.termOut (command ++ ": not found\n")], true)

/-- `execute_command` from the source: tokenize, parse, dispatch. -/
def execute_command (env : Env) (input : String) : Option (List Eff × Bool) :=
  execCtx env (CommandContext.parse (tokenize input))

/-- `run_builtin_capture` from the source: the captured textual output
of a builtin pipeline stage.  `none` models the panics on `ctx.argv[0]`
(empty argv) and on `ctx.argv[1]` (a `type` stage without argument). -/
def run_builtin_capture (env : Env) (ctx : CommandContext) : Option String :=
  match ctx.argv.head? with
  | none => none
  | some name =>
    if name = "echo" then
      some (strJoin " " ctx.argv.tail ++ "\n")
    else if name = "pwd" then
      some (env.cwd ++ "\n")
    else if name = "type" then
      match ctx.argv.tail.head? with
      | none => none
      | some query =>
        if SHELL_BUILTINS.contains query then
          some (query ++ " is a shell builtin\n")
        else
          match env.find_in_path query with
          | some p => some (query ++ " is " ++ p ++ "\n")
          | none => some (query ++ ": not found\n")
    else
      some ""

/-- Backslash-escape expansion performed by the external `printf`
utility on its format operand (POSIX `printf(1)`).  Conversion
specifications are not modelled: a percent sign is passed through
unchanged, and every string this development applies the function to is
free of conversion specifications.  Octal escapes are likewise outside
the fragment exercised here. -/
def printfExpand : List Char → List Char
  | [] => []
  | c :: rest =>
    if c = '\\' then
      match rest with
      | [] => ['\\']
      | e :: rest2 =>
        if e = 'n' then '\n' :: printfExpand rest2
        else if e = 't' then '\t' :: printfExpand rest2
        else if e = 'r' then '\r' :: printfExpand rest2
        else if e = '\\' then '\\' :: printfExpand rest2
        else if e = 'a' then Char.ofNat 7 :: printfExpand rest2
        else if e = 'b' then Char.ofNat 8 :: printfExpand rest2
        else if e = 'f' then Char.ofNat 12 :: printfExpand rest2
        else if e = 'v' then Char.ofNat 11 :: printfExpand rest2
        else '\\' :: e :: printfExpand rest2
    else c :: printfExpand rest

/-- String version of `printfExpand`. -/
def printfExpandStr (s : String) : String := String.mk (printfExpand s.data)

/-- Whether a string contains neither a backslash nor a percent sign,
the two characters `printf` treats specially. -/
def noPrintfSpecial (s : String) : Bool :=
  s.data.all (fun c => c ≠ '\\' ∧ c ≠ '%')

/-- `string_to_stdio` from the source: bridge a captured builtin output
string to a byte source for the next stage by spawning
`printf <string>`.  The bytes the next stage receives are the `printf`
expansion of the string.  `none` models the `unwrap` panic when the
`printf` executable cannot be spawned. -/
def string_to_stdio (env : Env) (input : String) : Option String :=
  if (env.find_in_path "printf").isSome then some (printfExpandStr input)
  else none

/-- The per-stage loop of `execute_pipeline`.  `prev` is the
`prev_stdout` byte source, `effs` the effect trace so far.  A builtin
stage is captured in-process (ignoring any parsed redirection and, for
the last stage, printing to the terminal); an external stage is spawned
with its stdin bound to `prev`, piped stdout unless it is the last
stage, and no redirection wiring at all.  `none` models the panics:
empty argv, a failing `spawn` (`expect`), a `type` builtin without
argument, and a failing `printf` spawn inside `string_to_stdio`. -/
def pipelineLoop (env : Env) : List String → Option String → List Eff →
    Option (List Eff × Bool)
  | [], _, effs => some (effs, true)
  | seg :: rest, prev, effs =>
    let ctx := CommandContext.parse (tokenize seg)
    let effs := effs ++ openEffs ctx
    match ctx.argv with
    | [] => none
    | name :: args =>
      if SHELL_BUILTINS.contains name then
        match run_builtin_capture env ctx with
        | none => none
        | some output =>
          if rest.isEmpty then
            pipelineLoop env rest prev (effs ++ [Eff.termOut output])
          else
            match string_to_stdio env output with
            | none => none
            | some bytes =>
              pipelineLoop env rest (some bytes)
                (effs ++ [Eff.spawn "printf" [output] none SpawnOut.piped none])
      else
        match env.find_in_path name with
        | none => none
        | some _ =>
          let stdinB := prev
          let outDest := if rest.isEmpty then SpawnOut.inherit else SpawnOut.piped
          let prev2 :=
            if rest.isEmpty then none
            else some (env.extBehavior name args (stdinB.getD ""))
          pipelineLoop env rest prev2
            (effs ++ [Eff.spawn name args stdinB outDest none])

/-- `execute_pipeline` from the source: a line without a pipe character
is delegated to `execute_command`; otherwise the line is split textually
on the pipe character, each segment trimmed, and the stages run in
order. -/
def execute_pipeline (env : Env) (input : String) : Option (List Eff × Bool) :=
  if strContains input '|' then
    pipelineLoop env ((strSplitOn input '|').map strTrim) none []
  else
    execute_command env input

/-- The bytes that reach the terminal: shell prints plus the output of
every spawned process whose stdout is inherited (its bytes are computed
from `extBehavior` and its stdin bytes).  Output of processes writing to
a pipe or file does not reach the terminal. -/
def terminalBytes (env : Env) (effs : List Eff) : String :=
  effs.foldl (fun acc e =>
    match e with
    | Eff.termOut s => acc ++ s
    | Eff.spawn name args stdinB SpawnOut.inherit _ =>
      acc ++ env.extBehavior name args (stdinB.getD "")
    | _ => acc) ""

/-- Whether an effect routes stage output to a redirection file: a
direct file write, or a spawn wired to a redirection file. -/
def effNoRedirOutput : Eff → Bool
  | Eff.fileWrite _ _ _ => false
  | Eff.spawn _ _ _ (SpawnOut.file _) _ => false
  | _ => true

/-- A concrete environment used for the closed evaluations: HOME is
/home/user, the working directory /tmp, only `cat` and `printf` resolve
on PATH, only /sub exists as a directory, and `cat` copies its stdin to
its stdout while other externals write nothing. -/
def env0 : Env where
  home := "/home/user"
  cwd := "/tmp"
  find_in_path := fun n => if n = "cat" ∨ n = "printf" then some ("/bin/" ++ n) else none
  dirExists := fun p => p = "/sub"
  extBehavior := fun n _ s => if n = "cat" then s else ""




/-! ## Autocomplete engine -/

/-- Lexicographic order on character lists by code point; agrees with
the Rust byte-wise `String` order (UTF-8 byte order coincides with code
point order). -/
def charListLe : List Char → List Char → Bool
  | [], _ => true
  | _ :: _, [] => false
  | a :: as, b :: bs =>
    if a.toNat < b.toNat then true
    else if b.toNat < a.toNat then false
    else charListLe as bs

/-- Stable insertion used by `sortStrings`. -/
def insertSorted (x : String) : List String → List String
  | [] => [x]
  | y :: ys => if charListLe x.data y.data then x :: y :: ys else y :: insertSorted x ys

/-- Stable ascending sort of a string list (`Vec::sort`). -/
def sortStrings (l : List String) : List String := l.foldr insertSorted []

/-- The candidate set built by `handle_autocomplete`: builtins whose
name starts with the buffer, then, in PATH iteration order, executable
directory entries starting with the buffer that are not already
present; finally sorted.  The PATH directories and their entries are
abstracted as a list of (file name, is-executable) pairs in iteration
order. -/
def computeMatches (buffer : String) (entries : List (String × Bool)) : List String :=
  let ms := SHELL_BUILTINS.filter (fun b => strStartsWith b buffer)
  let ms := entries.foldl (fun acc e =>
    if strStartsWith e.1 buffer ∧ e.2 = true ∧ acc.contains e.1 = false
    then acc ++ [e.1] else acc) ms
  sortStrings ms

/-- The longest-common-prefix scan of `handle_multiple_matches`: starting
from index `i` (the buffer length), extend while every match agrees with
`first` at that index; `fuel` is the remaining number of loop
iterations (`first.len() - i`). -/
def lcpScan (ms : List String) (first : String) (i : Nat) : Nat → Nat
  | 0 => i
  | fuel + 1 =>
    match first.data.get? i with
    | none => i
    | some c =>
      if ms.all (fun m => m.data.get? i = some c) then
        lcpScan ms first (i + 1) fuel
      else i

/-- `handle_multiple_matches` from the source: on the first Tab press,
extend the buffer by the longest common prefix of the candidates (bell
when there is no extension); on a repeated Tab press, list candidates
and reprint the prompt line.  Returns the new buffer and the bytes
echoed to the terminal. -/
def handle_multiple_matches (buffer : String) (ms : List String) (tabCount : Nat) :
    String × String :=
  if tabCount = 1 then
    let first := ms.headD ""
    let lcpLen := lcpScan ms first buffer.data.length (first.data.length - buffer.data.length)
    if buffer.data.length < lcpLen then
      let extra := String.mk ((first.data.drop buffer.data.length).take
        (lcpLen - buffer.data.length))
      (buffer ++ extra, extra)
    else (buffer, "\x07")
  else if 2 ≤ tabCount then
    (buffer, "\n" ++ "\r" ++ strJoin "  " ms ++ "\r\n" ++ "$ " ++ buffer)
  else (buffer, "")

/-- `handle_autocomplete` from the source: zero candidates ring the
bell; a single candidate is completed in full with a trailing space;
several candidates are delegated to `handle_multiple_matches`.  Returns
the new buffer and the bytes echoed to the terminal. -/
def handle_autocomplete (buffer : String) (entries : List (String × Bool))
    (tabCount : Nat) : String × String :=
  match computeMatches buffer entries with
  | [] => (buffer, "\x07")
  | [m] =>
    let completion := strDrop m buffer.data.length
    (buffer ++ completion ++ " ", completion ++ " ")
  | ms => handle_multiple_matches buffer ms tabCount




/-! ## Redirection operator classification -/

/-- The four stdout redirection operator tokens. -/
def stdoutOps : List String := [">", "1>", ">>", "1>>"]

/-- The two stderr redirection operator tokens. -/
def stderrOps : List String := ["2>", "2>>"]

/-- The operators selecting append mode. -/
def appendOps : List String := [">>", "1>>", "2>>"]

/-- All six redirection operator tokens. -/
def redirOps : List String := [">", "1>", ">>", "1>>", "2>", "2>>"]

/-- `noStdoutTouch ts` holds when the `parse` scan of `ts` never writes
the stdout redirection fields: no token is processed as a stdout
operator, counting the consumption of operator path arguments exactly
as `parseAux` does (a token following a stderr operator is its path,
not an operator). -/
def noStdoutTouch : List String → Bool
  | [] => true
  | t :: rest =>
    if t = ">" ∨ t = "1>" ∨ t = ">>" ∨ t = "1>>" then false
    else if t = "2>" ∨ t = "2>>" then
      match rest with
      | [] => true
      | _ :: rest2 => noStdoutTouch rest2
    else noStdoutTouch rest

/-- `noStderrTouch ts` holds when the `parse` scan of `ts` never writes
the stderr redirection fields: no token is processed as a stderr
operator, counting the consumption of operator path arguments exactly
as `parseAux` does (a token following a stdout operator is its path,
not an operator). -/
def noStderrTouch : List String → Bool
  | [] => true
  | t :: rest =>
    if t = "2>" ∨ t = "2>>" then false
    else if t = ">" ∨ t = "1>" ∨ t = ">>" ∨ t = "1>>" then
      match rest with
      | [] => true
      | _ :: rest2 => noStderrTouch rest2
    else noStderrTouch rest

/-! ## Helper lemmas about the command-context parser -/

theorem parseAux_stdout_op (op p : String) (rest : List String) (st : ParseState)
    (h : op ∈ stdoutOps) :
    parseAux (op :: p :: rest) st =
      parseAux rest (st.setOut (some p) (decide (op ∈ appendOps))) := by
  simp only [stdoutOps, List.mem_cons, List.not_mem_nil, or_false] at h
  rcases h with rfl | rfl | rfl | rfl <;> simp [parseAux, appendOps]

theorem parseAux_stderr_op (op p : String) (rest : List String) (st : ParseState)
    (h : op ∈ stderrOps) :
    parseAux (op :: p :: rest) st =
      parseAux rest (st.setErr (some p) (decide (op ∈ appendOps))) := by
  simp only [stderrOps, List.mem_cons, List.not_mem_nil, or_false] at h
  rcases h with rfl | rfl <;> simp [parseAux, appendOps]

theorem parseAux_other (t : String) (rest : List String) (st : ParseState)
    (h : t ∉ redirOps) :
    parseAux (t :: rest) st = parseAux rest { st with argv := st.argv ++ [t] } := by
  simp only [redirOps, List.mem_cons, List.not_mem_nil, or_false, not_or] at h
  obtain ⟨h1, h2, h3, h4, h5, h6⟩ := h
  rw [parseAux.eq_def]
  simp [h1, h2, h3, h4, h5, h6]

theorem parseAux_stdout_trailing (op : String) (st : ParseState) (h : op ∈ stdoutOps) :
    (parseAux [op] st).stdoutPath = none := by
  simp only [stdoutOps, List.mem_cons, List.not_mem_nil, or_false] at h
  rcases h with rfl | rfl | rfl | rfl <;> simp [parseAux, ParseState.setOut]

theorem parseAux_stderr_trailing (op : String) (st : ParseState) (h : op ∈ stderrOps) :
    (parseAux [op] st).stderrPath = none := by
  simp only [stderrOps, List.mem_cons, List.not_mem_nil, or_false] at h
  rcases h with rfl | rfl <;> simp [parseAux, ParseState.setErr]

theorem parseAux_keeps_stdout_n : ∀ (n : Nat) (l : List String), l.length ≤ n →
    ∀ st : ParseState, noStdoutTouch l = true →
    (parseAux l st).stdoutPath = st.stdoutPath ∧
    (parseAux l st).appendStdout = st.appendStdout := by
  intro n
  induction n with
  | zero =>
    intro l hl st h
    have hnil : l = [] := List.length_eq_zero.mp (Nat.le_zero.mp hl)
    subst hnil
    simp [parseAux]
  | succ n ih =>
    intro l hl st h
    match l with
    | [] => simp [parseAux]
    | t :: rest =>
      by_cases h1 : t = ">" ∨ t = "1>" ∨ t = ">>" ∨ t = "1>>"
      · rw [noStdoutTouch.eq_def] at h
        simp [h1] at h
      · by_cases h2 : t = "2>" ∨ t = "2>>"
        · match rest with
          | [] =>
            rcases h2 with rfl | rfl <;> simp [parseAux, ParseState.setErr]
          | p :: rest2 =>
            have hrec : noStdoutTouch rest2 = true := by
              rw [noStdoutTouch.eq_def] at h
              rcases h2 with rfl | rfl <;> simpa using h
            have hstep : parseAux (t :: p :: rest2) st =
                parseAux rest2 (st.setErr (some p) (decide (t ∈ appendOps))) := by
              apply parseAux_stderr_op
              simp [stderrOps, h2]
            rw [hstep]
            have hlen : rest2.length ≤ n := by
              simp at hl
              omega
            have := ih rest2 hlen (st.setErr (some p) (decide (t ∈ appendOps))) hrec
            simpa [ParseState.setErr] using this
        · have h1a : ¬t = ">" := by tauto
          have h1b : ¬t = "1>" := by tauto
          have h1c : ¬t = ">>" := by tauto
          have h1d : ¬t = "1>>" := by tauto
          have h2a : ¬t = "2>" := by tauto
          have h2b : ¬t = "2>>" := by tauto
          have hrec : noStdoutTouch rest = true := by
            rw [noStdoutTouch.eq_def] at h
            simpa [h1a, h1b, h1c, h1d, h2a, h2b] using h
          have hstep : parseAux (t :: rest) st =
              parseAux rest { st with argv := st.argv ++ [t] } := by
            apply parseAux_other
            simp [redirOps, h1a, h1b, h1c, h1d, h2a, h2b]
          rw [hstep]
          have hlen : rest.length ≤ n := by
            simp at hl
            omega
          exact ih rest hlen _ hrec

theorem parseAux_keeps_stdout (l : List String) (st : ParseState)
    (h : noStdoutTouch l = true) :
    (parseAux l st).stdoutPath = st.stdoutPath ∧
    (parseAux l st).appendStdout = st.appendStdout :=
  parseAux_keeps_stdout_n l.length l le_rfl st h

theorem parseAux_keeps_stderr_n : ∀ (n : Nat) (l : List String), l.length ≤ n →
    ∀ st : ParseState, noStderrTouch l = true →
    (parseAux l st).stderrPath = st.stderrPath ∧
    (parseAux l st).appendStderr = st.appendStderr := by
  intro n
  induction n with
  | zero =>
    intro l hl st h
    have hnil : l = [] := List.length_eq_zero.mp (Nat.le_zero.mp hl)
    subst hnil
    simp [parseAux]
  | succ n ih =>
    intro l hl st h
    match l with
    | [] => simp [parseAux]
    | t :: rest =>
      by_cases h1 : t = "2>" ∨ t = "2>>"
      · rw [noStderrTouch.eq_def] at h
        simp [h1] at h
      · by_cases h2 : t = ">" ∨ t = "1>" ∨ t = ">>" ∨ t = "1>>"
        · match rest with
          | [] =>
            rcases h2 with rfl | rfl | rfl | rfl <;> simp [parseAux, ParseState.setOut]
          | p :: rest2 =>
            have hrec : noStderrTouch rest2 = true := by
              rw [noStderrTouch.eq_def] at h
              rcases h2 with rfl | rfl | rfl | rfl <;> simpa using h
            have hstep : parseAux (t :: p :: rest2) st =
                parseAux rest2 (st.setOut (some p) (decide (t ∈ appendOps))) := by
              apply parseAux_stdout_op
              simp [stdoutOps, h2]
            rw [hstep]
            have hlen : rest2.length ≤ n := by
              simp at hl
              omega
            have := ih rest2 hlen (st.setOut (some p) (decide (t ∈ appendOps))) hrec
            simpa [ParseState.setOut] using this
        · have h1a : ¬t = "2>" := by tauto
          have h1b : ¬t = "2>>" := by tauto
          have h2a : ¬t = ">" := by tauto
          have h2b : ¬t = "1>" := by tauto
          have h2c : ¬t = ">>" := by tauto
          have h2d : ¬t = "1>>" := by tauto
          have hrec : noStderrTouch rest = true := by
            rw [noStderrTouch.eq_def] at h
            simpa [h1a, h1b, h2a, h2b, h2c, h2d] using h
          have hstep : parseAux (t :: rest) st =
              parseAux rest { st with argv := st.argv ++ [t] } := by
            apply parseAux_other
            simp [redirOps, h1a, h1b, h2a, h2b, h2c, h2d]
          rw [hstep]
          have hlen : rest.length ≤ n := by
            simp at hl
            omega
          exact ih rest hlen _ hrec

theorem parseAux_keeps_stderr (l : List String) (st : ParseState)
    (h : noStderrTouch l = true) :
    (parseAux l st).stderrPath = st.stderrPath ∧
    (parseAux l st).appendStderr = st.appendStderr :=
  parseAux_keeps_stderr_n l.length l le_rfl st h

theorem parseAux_leading_words : ∀ (pre : List String) (l : List String) (st : ParseState),
    (∀ t ∈ pre, t ∉ redirOps) →
    parseAux (pre ++ l) st = parseAux l { st with argv := st.argv ++ pre } := by
  intro pre
  induction pre with
  | nil => intro l st _; simp
  | cons t pre ih =>
    intro l st h
    have ht : t ∉ redirOps := h t (by simp)
    rw [List.cons_append, parseAux_other t (pre ++ l) st ht,
      ih l _ (fun x hx => h x (by simp [hx]))]
    simp

/-! ## Helper lemmas about the tokenizer -/

theorem tokenizeAux_single_quoted : ∀ (l : List Char), (∀ c ∈ l, c ≠ squote) →
    ∀ (rest : List Char) (toks : List String) (cur : List Char),
    tokenizeAux (l ++ rest) toks cur true false =
      tokenizeAux rest toks (cur ++ l) true false := by
  intro l
  induction l with
  | nil => intro _ rest toks cur; simp
  | cons c l ih =>
    intro h rest toks cur
    have hc : c ≠ squote := h c (by simp)
    have hstep : tokenizeAux ((c :: l) ++ rest) toks cur true false =
        tokenizeAux (l ++ rest) toks (cur ++ [c]) true false := by
      rw [List.cons_append, tokenizeAux.eq_def]
      simp [hc]
    rw [hstep, ih (fun x hx => h x (by simp [hx]))]
    simp

theorem tokenizeAux_squote_toggle (rest : List Char) (toks : List String)
    (cur : List Char) (inS : Bool) :
    tokenizeAux (squote :: rest) toks cur inS false =
      tokenizeAux rest toks cur (!inS) false := by
  rw [tokenizeAux.eq_def]
  simp

theorem tokenizeAux_dquote_toggle (rest : List Char) (toks : List String)
    (cur : List Char) (inD : Bool) :
    tokenizeAux ('"' :: rest) toks cur false inD =
      tokenizeAux rest toks cur false (!inD) := by
  have hne : ('"' : Char) ≠ squote := by decide
  rw [tokenizeAux.eq_def]
  simp [hne]

/-! ## Helper lemmas about printf expansion and the pipeline loop -/

theorem printfExpand_id : ∀ l : List Char, (∀ c ∈ l, c ≠ '\\' ∧ c ≠ '%') →
    printfExpand l = l := by
  intro l
  induction l with
  | nil => simp [printfExpand]
  | cons c rest ih =>
    intro h
    have hc : c ≠ '\\' := (h c (by simp)).1
    rw [printfExpand.eq_def]
    simp [hc, ih (fun x hx => h x (by simp [hx]))]

theorem pipelineLoop_continue : ∀ (env : Env) (segs : List String)
    (prev : Option String) (effs : List Eff) (r : List Eff × Bool),
    pipelineLoop env segs prev effs = some r → r.2 = true := by
  intro env segs
  induction segs with
  | nil =>
    intro prev effs r h
    simp [pipelineLoop] at h
    simp [← h]
  | cons seg rest ih =>
    intro prev effs r h
    rw [pipelineLoop.eq_def] at h
    dsimp at h
    split at h
    · exact absurd h (by simp)
    · split at h
      · split at h
        · exact absurd h (by simp)
        · split at h
          · exact ih _ _ _ h
          · split at h
            · exact absurd h (by simp)
            · exact ih _ _ _ h
      · split at h
        · exact absurd h (by simp)
        · exact ih _ _ _ h

theorem openEffs_no_redir_output (ctx : CommandContext) :
    (openEffs ctx).all effNoRedirOutput = true := by
  rcases ctx with ⟨argv, o, e⟩
  cases o <;> cases e <;> simp [openEffs, effNoRedirOutput]

theorem pipelineLoop_no_redir_output : ∀ (env : Env) (segs : List String)
    (prev : Option String) (effs : List Eff) (r : List Eff × Bool),
    pipelineLoop env segs prev effs = some r →
    effs.all effNoRedirOutput = true →
    r.1.all effNoRedirOutput = true := by
  intro env segs
  induction segs with
  | nil =>
    intro prev effs r h hall
    simp [pipelineLoop] at h
    rw [← h]
    exact hall
  | cons seg rest ih =>
    intro prev effs r h hall
    have hopen : (effs ++ openEffs (CommandContext.parse (tokenize seg))).all
        effNoRedirOutput = true := by
      simp [List.all_append, hall, openEffs_no_redir_output]
    rw [pipelineLoop.eq_def] at h
    dsimp at h
    split at h
    · exact absurd h (by simp)
    · split at h
      · split at h
        · exact absurd h (by simp)
        · split at h
          · refine ih _ _ _ h ?_
            rw [List.all_append, hopen]
            simp [effNoRedirOutput]
          · split at h
            · exact absurd h (by simp)
            · refine ih _ _ _ h ?_
              rw [List.all_append, hopen]
              simp [effNoRedirOutput]
      · split at h
        · exact absurd h (by simp)
        · refine ih _ _ _ h ?_
          rw [List.all_append, hopen]
          simp only [Bool.true_and]
          split <;> simp [effNoRedirOutput]

/-! ## Claim theorems -/

/-- Claim C6: `parse(["cmd", "1>", "out.txt", "arg"])` yields argv
`["cmd", "arg"]` with stdout redirected to out.txt in truncate mode; in
general each redirection operator consumes itself plus the immediately
following token as its file path, non-operator tokens are appended to
argv in order, and when no following token exists no redirection is
recorded for that stream (a trailing operator leaves the recorded path
`none`). -/
theorem c6_parse_redirections :
    CommandContext.parse ["cmd", "1>", "out.txt", "arg"] =
      ⟨["cmd", "arg"], some ⟨"out.txt", false⟩, none⟩
    ∧ (∀ (op p : String) (rest : List String) (st : ParseState), op ∈ stdoutOps →
        parseAux (op :: p :: rest) st =
          parseAux rest (st.setOut (some p) (decide (op ∈ appendOps))))
    ∧ (∀ (op p : String) (rest : List String) (st : ParseState), op ∈ stderrOps →
        parseAux (op :: p :: rest) st =
          parseAux rest (st.setErr (some p) (decide (op ∈ appendOps))))
    ∧ (∀ (t : String) (rest : List String) (st : ParseState), t ∉ redirOps →
        parseAux (t :: rest) st = parseAux rest { st with argv := st.argv ++ [t] })
    ∧ (∀ (op : String) (st : ParseState), op ∈ stdoutOps →
        (parseAux [op] st).stdoutPath = none)
    ∧ (∀ (op : String) (st : ParseState), op ∈ stderrOps →
        (parseAux [op] st).stderrPath = none) :=
  ⟨by decide, parseAux_stdout_op, parseAux_stderr_op, parseAux_other,
    parseAux_stdout_trailing, parseAux_stderr_trailing⟩

/-- Witness for C6: the quantified parts evaluated at concrete inputs. -/
theorem c6_parse_redirections_witness :
    parseAux ["1>", "q", "x"] ⟨[], none, false, none, false⟩ =
      parseAux ["x"] (ParseState.setOut ⟨[], none, false, none, false⟩ (some "q") false)
    ∧ parseAux ["w", "x"] ⟨[], none, false, none, false⟩ =
      parseAux ["x"] ⟨["w"], none, false, none, false⟩
    ∧ (parseAux [">"] ⟨["a"], some "old", false, none, false⟩).stdoutPath = none := by
  refine ⟨?_, ?_, ?_⟩
  · have h := c6_parse_redirections.2.1 "1>" "q" ["x"]
      ⟨[], none, false, none, false⟩ (by decide)
    simpa using h
  · have h := c6_parse_redirections.2.2.2.1 "w" ["x"]
      ⟨[], none, false, none, false⟩ (by decide)
    simpa using h
  · exact c6_parse_redirections.2.2.2.2.1 ">" ⟨["a"], some "old", false, none, false⟩
      (by decide)

/-- Claim C7: the parsed context holds at most one redirection per
stream selector (structurally, an `Option` each for stdout and for
stderr), and for each stream it is the one introduced by the last
operator for that stream: whatever the parse state held before (any
earlier operators are summarised by the arbitrary state `st`), the
resulting path and append mode are those of that last operator,
provided the remaining tokens touch that stream no further.  Parts one
and two state this for the stdout stream, parts three and four for the
stderr stream; parts two and four state it at the `CommandContext`
level for a token list whose earlier tokens are ordinary words. -/
theorem c7_last_redirection_wins :
    (∀ (op p : String) (rest : List String) (st : ParseState),
      op ∈ stdoutOps → noStdoutTouch rest = true →
      (parseAux (op :: p :: rest) st).stdoutPath = some p ∧
      (parseAux (op :: p :: rest) st).appendStdout = decide (op ∈ appendOps))
    ∧ (∀ (pre : List String) (op p : String) (rest : List String),
      (∀ t ∈ pre, t ∉ redirOps) → op ∈ stdoutOps → noStdoutTouch rest = true →
      (CommandContext.parse (pre ++ op :: p :: rest)).stdoutRedir =
        some ⟨p, decide (op ∈ appendOps)⟩)
    ∧ (∀ (op p : String) (rest : List String) (st : ParseState),
      op ∈ stderrOps → noStderrTouch rest = true →
      (parseAux (op :: p :: rest) st).stderrPath = some p ∧
      (parseAux (op :: p :: rest) st).appendStderr = decide (op ∈ appendOps))
    ∧ (∀ (pre : List String) (op p : String) (rest : List String),
      (∀ t ∈ pre, t ∉ redirOps) → op ∈ stderrOps → noStderrTouch rest = true →
      (CommandContext.parse (pre ++ op :: p :: rest)).stderrRedir =
        some ⟨p, decide (op ∈ appendOps)⟩) := by
  have keyOut : ∀ (op p : String) (rest : List String) (st : ParseState),
      op ∈ stdoutOps → noStdoutTouch rest = true →
      (parseAux (op :: p :: rest) st).stdoutPath = some p ∧
      (parseAux (op :: p :: rest) st).appendStdout = decide (op ∈ appendOps) := by
    intro op p rest st hop hrest
    rw [parseAux_stdout_op op p rest st hop]
    have h := parseAux_keeps_stdout rest (st.setOut (some p) (decide (op ∈ appendOps))) hrest
    simpa [ParseState.setOut] using h
  have keyErr : ∀ (op p : String) (rest : List String) (st : ParseState),
      op ∈ stderrOps → noStderrTouch rest = true →
      (parseAux (op :: p :: rest) st).stderrPath = some p ∧
      (parseAux (op :: p :: rest) st).appendStderr = decide (op ∈ appendOps) := by
    intro op p rest st hop hrest
    rw [parseAux_stderr_op op p rest st hop]
    have h := parseAux_keeps_stderr rest (st.setErr (some p) (decide (op ∈ appendOps))) hrest
    simpa [ParseState.setErr] using h
  refine ⟨keyOut, ?_, keyErr, ?_⟩
  · intro pre op p rest hpre hop hrest
    have h := keyOut op p rest ⟨pre, none, false, none, false⟩ hop hrest
    unfold CommandContext.parse
    rw [parseAux_leading_words pre (op :: p :: rest) _ hpre]
    dsimp only
    simp only [List.nil_append]
    rw [h.1, h.2]
    simp
  · intro pre op p rest hpre hop hrest
    have h := keyErr op p rest ⟨pre, none, false, none, false⟩ hop hrest
    unfold CommandContext.parse
    rw [parseAux_leading_words pre (op :: p :: rest) _ hpre]
    dsimp only
    simp only [List.nil_append]
    rw [h.1, h.2]
    simp

/-- Witness for C7: a second stdout operator overwrites the path and
mode recorded by a first one, and likewise a second stderr operator
overwrites an earlier stderr recording, for arbitrary concrete prior
states. -/
theorem c7_last_redirection_wins_witness :
    (parseAux [">>", "b"] ⟨["cmd"], some "a", false, none, false⟩).stdoutPath = some "b"
    ∧ (parseAux [">>", "b"] ⟨["cmd"], some "a", false, none, false⟩).appendStdout = true
    ∧ (CommandContext.parse ["cmd", ">>", "b"]).stdoutRedir = some ⟨"b", true⟩
    ∧ (parseAux ["2>>", "e"] ⟨["cmd"], none, false, some "d", false⟩).stderrPath = some "e"
    ∧ (parseAux ["2>>", "e"] ⟨["cmd"], none, false, some "d", false⟩).appendStderr = true
    ∧ (CommandContext.parse ["cmd", "2>>", "e"]).stderrRedir = some ⟨"e", true⟩ := by
  have h := c7_last_redirection_wins.1 ">>" "b" []
    ⟨["cmd"], some "a", false, none, false⟩ (by decide) (by decide)
  have h2 := c7_last_redirection_wins.2.1 ["cmd"] ">>" "b" []
    (by decide) (by decide) (by decide)
  have h3 := c7_last_redirection_wins.2.2.1 "2>>" "e" []
    ⟨["cmd"], none, false, some "d", false⟩ (by decide) (by decide)
  have h4 := c7_last_redirection_wins.2.2.2 ["cmd"] "2>>" "e" []
    (by decide) (by decide) (by decide)
  exact ⟨h.1, by rw [h.2]; decide, by simpa using h2,
    h3.1, by rw [h3.2]; decide, by simpa using h4⟩

/-- Counterexample for claim C5: the claim also asserts that quote
characters never appear in any emitted token, but a single quote inside
double quotes is appended literally: tokenizing a double-quoted single
quote yields a token that contains the single-quote character. -/
theorem c5_tokenize_counterexample :
    tokenize "\"\x27\"" = ["\x27"]
    ∧ ("\x27" : String).data.contains squote = true := by decide

/-- Claim C5 (amended): tokenize on the line `echo` + single-quoted
`a   b` + double-quoted `c\"d` yields exactly the three tokens `echo`,
`a   b`, `c"d`; inside single quotes every character except the closing
quote is appended literally; and the quote characters acting as
delimiters (a single quote outside double quotes, a double quote
outside single quotes) are never appended — a quote character can still
reach a token when it is escaped or enclosed in quotes of the other
kind. -/
theorem c5_tokenize_amended :
    tokenize "echo \x27a   b\x27 \"c\\\"d\"" = ["echo", "a   b", "c\"d"]
    ∧ (∀ (l : List Char), (∀ c ∈ l, c ≠ squote) →
        ∀ (rest : List Char) (toks : List String) (cur : List Char),
        tokenizeAux (l ++ rest) toks cur true false =
          tokenizeAux rest toks (cur ++ l) true false)
    ∧ (∀ (rest : List Char) (toks : List String) (cur : List Char) (inS : Bool),
        tokenizeAux (squote :: rest) toks cur inS false =
          tokenizeAux rest toks cur (!inS) false)
    ∧ (∀ (rest : List Char) (toks : List String) (cur : List Char) (inD : Bool),
        tokenizeAux ('"' :: rest) toks cur false inD =
          tokenizeAux rest toks cur false (!inD)) :=
  ⟨by decide, tokenizeAux_single_quoted, tokenizeAux_squote_toggle,
    tokenizeAux_dquote_toggle⟩

/-- Witness for C5: the single-quoted-literal part applied to the
character list of `a b`, whose characters are spelled out there
verbatim even though one of them is a space. -/
theorem c5_tokenize_amended_witness :
    tokenizeAux ['a', ' ', 'b'] [] [] true false =
      tokenizeAux [] [] ['a', ' ', 'b'] true false := by
  have h := c5_tokenize_amended.2.1 ['a', ' ', 'b'] (by decide) [] [] []
  simpa using h

/-- Claim C9: some accepted inputs reach the out-of-bounds indexing of
`argv[0]`: the two-character line of an empty single-quote pair is
non-empty and pipe-free, tokenizes to zero tokens and so parses to an
empty argv, making `execute_command` hit the empty-argv branch (`none`
models the panic); and the pipeline `echo a | | echo b` has an empty
middle stage whose parse has empty argv, making `execute_pipeline` hit
the same branch. -/
theorem c9_empty_argv_reachable :
    ("\x27\x27" : String) ≠ ""
    ∧ strContains "\x27\x27" '|' = false
    ∧ tokenize "\x27\x27" = []
    ∧ (CommandContext.parse (tokenize "\x27\x27")).argv = []
    ∧ execute_pipeline env0 "\x27\x27" = none
    ∧ (CommandContext.parse (tokenize "")).argv = []
    ∧ execute_pipeline env0 "echo a | | echo b" = none := by decide

/-- Counterexample for claim C2: in the pipeline `echo a | echo hi >
out.txt` the last stage carries a stdout redirection (parsed and the
file opened), yet the captured builtin output is printed to the
terminal and nothing is ever written to the redirection file; likewise
in `echo a | cat > out.txt` the external last stage is spawned with
inherited terminal stdout, not wired to the file. -/
theorem c2_redirect_counterexample :
    execute_pipeline env0 "echo a | echo hi > out.txt" =
      some ([Eff.spawn "printf" ["a\n"] none SpawnOut.piped none,
             Eff.openRedir "out.txt" false, Eff.termOut "hi\n"], true)
    ∧ (CommandContext.parse (tokenize "echo hi > out.txt")).stdoutRedir =
        some ⟨"out.txt", false⟩
    ∧ execute_pipeline env0 "echo a | cat > out.txt" =
      some ([Eff.spawn "printf" ["a\n"] none SpawnOut.piped none,
             Eff.openRedir "out.txt" false,
             Eff.spawn "cat" [] (some "a\n") SpawnOut.inherit none], true)
    ∧ (CommandContext.parse (tokenize "cat > out.txt")).stdoutRedir =
        some ⟨"out.txt", false⟩
    ∧ ([Eff.spawn "printf" ["a\n"] none SpawnOut.piped none,
        Eff.openRedir "out.txt" false, Eff.termOut "hi\n"] : List Eff).all
        effNoRedirOutput = true
    ∧ ([Eff.spawn "printf" ["a\n"] none SpawnOut.piped none,
        Eff.openRedir "out.txt" false,
        Eff.spawn "cat" [] (some "a\n") SpawnOut.inherit none] : List Eff).all
        effNoRedirOutput = true := by decide

/-- Claim C2 (amended): in a multi-stage pipeline, parsed redirection
targets are opened (created or truncated) as a side effect of parsing,
but no stage output — last stage included, builtin or external — is
ever routed to a redirection file: every effect of a pipeline execution
avoids redirection output, and in the concrete builtin-last example the
last stage's bytes go to the terminal. -/
theorem c2_redirect_amended :
    (∀ (env : Env) (input : String) (r : List Eff × Bool),
        strContains input '|' = true → execute_pipeline env input = some r →
        r.1.all effNoRedirOutput = true)
    ∧ (execute_pipeline env0 "echo a | echo hi > out.txt").map
        (fun r => terminalBytes env0 r.1) = some "hi\n" := by
  constructor
  · intro env input r h1 h2
    rw [execute_pipeline] at h2
    rw [h1] at h2
    simp only [if_true] at h2
    exact pipelineLoop_no_redir_output env _ none [] r h2 (by decide)
  · decide

/-- Witness for C2 (amended): the universally quantified part applied
to the concrete pipeline with a redirected last stage. -/
theorem c2_redirect_amended_witness :
    ([Eff.spawn "printf" ["a\n"] none SpawnOut.piped none,
      Eff.openRedir "out.txt" false, Eff.termOut "hi\n"] : List Eff).all
      effNoRedirOutput = true := by
  have h := c2_redirect_amended.1 env0 "echo a | echo hi > out.txt"
    ([Eff.spawn "printf" ["a\n"] none SpawnOut.piped none,
      Eff.openRedir "out.txt" false, Eff.termOut "hi\n"], true)
    (by decide) (by decide)
  simpa using h

/-- Counterexample for claim C1: bytes are not always preserved across
a builtin-to-external link.  For the pipeline `echo` + single-quoted
`a\nb` + `| cat`, the first stage writes the five characters
a, backslash, n, b, newline, but the bridge through `printf` expands
the backslash escape, so `cat` receives a, newline, b, newline — not
the bytes the first stage wrote. -/
theorem c1_bytes_counterexample :
    run_builtin_capture env0 (CommandContext.parse (tokenize "echo \x27a\\nb\x27")) =
      some "a\\nb\n"
    ∧ execute_pipeline env0 "echo \x27a\\nb\x27 | cat" =
      some ([Eff.spawn "printf" ["a\\nb\n"] none SpawnOut.piped none,
             Eff.spawn "cat" [] (some "a\nb\n") SpawnOut.inherit none], true)
    ∧ ("a\nb\n" : String) ≠ "a\\nb\n" := by decide

/-- Claim C1 (amended): a builtin-to-external link passes the captured
bytes through `printf`, so the next stage receives exactly the bytes the
builtin wrote whenever they contain no backslash and no percent sign
(otherwise `printf` escape expansion rewrites them); and the concrete
pipeline `echo hello | cat` produces exactly `hello\n` as final
terminal output and continues the session. -/
theorem c1_bytes_amended :
    (∀ (env : Env) (s : String), (env.find_in_path "printf").isSome = true →
        noPrintfSpecial s = true → string_to_stdio env s = some s)
    ∧ (execute_pipeline env0 "echo hello | cat").map
        (fun r => terminalBytes env0 r.1) = some "hello\n"
    ∧ (execute_pipeline env0 "echo hello | cat").map Prod.snd = some true := by
  refine ⟨?_, by decide, by decide⟩
  intro env s h1 h2
  have hall : ∀ c ∈ s.data, c ≠ '\\' ∧ c ≠ '%' := by
    simpa [noPrintfSpecial, List.all_eq_true] using h2
  rw [string_to_stdio, if_pos h1, printfExpandStr, printfExpand_id s.data hall]

/-- Witness for C1 (amended): the byte-preservation part applied to a
concrete backslash-free captured output. -/
theorem c1_bytes_amended_witness :
    string_to_stdio env0 "abc\n" = some "abc\n" :=
  c1_bytes_amended.1 env0 "abc\n" (by decide) (by decide)

/-- Claim C3 (code bug): with HOME `/home/user`, the `cd` target for
the argument `~/sub` is `/sub`, not `/home/user/sub`: stripping the
tilde leaves the absolute path `/sub`, and `Path::join` replaces the
base entirely when its argument is absolute.  The no-argument and
verbatim cases behave as the claim states, so the tilde-replacement
part of the claim is what the code breaks. -/
theorem c3_cd_tilde_divergence :
    cdTarget "/home/user" (some "~/sub") = "/sub"
    ∧ execute_command env0 "cd ~/sub" = some ([Eff.chdir "/sub"], true)
    ∧ ("/sub" : String) ≠ "/home/user/sub"
    ∧ cdTarget "/home/user" none = "/home/user"
    ∧ cdTarget "/home/user" (some "relative/p") = "relative/p"
    ∧ cdTarget "/home/user" (some "/abs") = "/abs"
    ∧ cdTarget "/home/user" (some "~docs") = "/home/user/docs" := by decide

/-- Counterexample for claim C4: the message written for a directly
invoked unknown command is `<name>: not found`, not
`<name>: command not found`. -/
theorem c4_not_found_counterexample :
    execute_command env0 "doesnotexist" =
      some ([Eff.termOut "doesnotexist: not found\n"], true)
    ∧ ("doesnotexist: not found\n" : String) ≠ "doesnotexist: command not found\n" := by
  decide

/-- Claim C4 (amended): for every directly invoked command name that is
neither a builtin nor resolvable on the search path, the shell writes
exactly `<name>: not found` to standard output and the session
continues (the dispatch returns `true`). -/
theorem c4_not_found_amended :
    ∀ (env : Env) (name : String) (args : List String) (r1 r2 : Option Redir),
    name ∉ SHELL_BUILTINS → env.find_in_path name = none →
    execCtx env ⟨name :: args, r1, r2⟩ =
      some (openEffs ⟨name :: args, r1, r2⟩ ++
        [Eff.termOut (name ++ ": not found\n")], true) := by
  intro env name args r1 r2 h1 h2
  simp only [SHELL_BUILTINS, List.mem_cons, List.not_mem_nil, or_false, not_or] at h1
  obtain ⟨e1, e2, e3, e4, e5⟩ := h1
  rw [execCtx.eq_def]
  simp [e1, e2, e3, e4, e5, h2]

/-- Witness for C4 (amended): applied to a concrete unknown name in the
concrete environment. -/
theorem c4_not_found_amended_witness :
    execCtx env0 ⟨["nosuchtool"], none, none⟩ =
      some ([Eff.termOut "nosuchtool: not found\n"], true) := by
  have h := c4_not_found_amended env0 "nosuchtool" [] none none (by decide) (by decide)
  simpa [openEffs] using h

/-- Claim C8: when autocomplete runs with exactly one candidate
matching the buffer prefix, the candidate's missing suffix plus a
trailing space is appended to the buffer and echoed; with zero
candidates, the audible bell (BEL, 0x07) is echoed and the buffer is
unchanged. -/
theorem c8_autocomplete :
    ∀ (buffer : String) (entries : List (String × Bool)) (tabCount : Nat),
    (computeMatches buffer entries = [] →
      handle_autocomplete buffer entries tabCount = (buffer, "\x07"))
    ∧ (∀ m : String, computeMatches buffer entries = [m] →
      handle_autocomplete buffer entries tabCount =
        (buffer ++ strDrop m buffer.data.length ++ " ",
         strDrop m buffer.data.length ++ " ")) := by
  intro buffer entries tabCount
  constructor
  · intro h
    rw [handle_autocomplete, h]
  · intro m h
    rw [handle_autocomplete, h]

/-- Witness for C8: with no PATH entries, buffer `pw` has the single
candidate `pwd` and completes to `pwd ` echoing `d `; buffer `zzz` has
no candidate and rings the bell. -/
theorem c8_autocomplete_witness :
    handle_autocomplete "pw" [] 1 = ("pwd ", "d ")
    ∧ handle_autocomplete "zzz" [] 1 = ("zzz", "\x07") := by
  have h1 := (c8_autocomplete "pw" [] 1).2 "pwd" (by decide)
  have h2 := (c8_autocomplete "zzz" [] 1).1 (by decide)
  constructor
  · rw [h1]; decide
  · exact h2

/-- Claim C10: whenever `execute_pipeline` on a line containing the
pipe character returns, it returns `true` (continue); an `exit` stage
inside a pipeline is captured with empty output (the capture falls to
the default arm) and therefore never ends the session; while `exit` as
a plain single command returns `false` and ends the session. -/
theorem c10_pipeline_continue :
    (∀ (env : Env) (input : String) (r : List Eff × Bool),
        strContains input '|' = true → execute_pipeline env input = some r →
        r.2 = true)
    ∧ (∀ (env : Env) (args : List String) (r1 r2 : Option Redir),
        run_builtin_capture env ⟨"exit" :: args, r1, r2⟩ = some "")
    ∧ (∀ env : Env, execute_command env "exit" = some ([Eff.setRaw false], false)) := by
  refine ⟨?_, ?_, ?_⟩
  · intro env input r h1 h2
    rw [execute_pipeline, h1] at h2
    simp only [if_true] at h2
    exact pipelineLoop_continue env _ none [] r h2
  · intro env args r1 r2
    rfl
  · intro env
    rfl

/-- Witness for C10: the universally quantified parts applied to the
concrete pipeline `echo hi | cat`, to an `exit` pipeline-stage context,
and to the plain `exit` command. -/
theorem c10_pipeline_continue_witness :
    (execute_pipeline env0 "echo hi | cat").map Prod.snd = some true
    ∧ run_builtin_capture env0 ⟨["exit"], none, none⟩ = some ""
    ∧ execute_command env0 "exit" = some ([Eff.setRaw false], false) := by
  have heq : execute_pipeline env0 "echo hi | cat" =
      some ([Eff.spawn "printf" ["hi\n"] none SpawnOut.piped none,
             Eff.spawn "cat" [] (some "hi\n") SpawnOut.inherit none], true) := by decide
  have h1 := c10_pipeline_continue.1 env0 "echo hi | cat" _ (by decide) heq
  refine ⟨?_, c10_pipeline_continue.2.1 env0 [] none none,
    c10_pipeline_continue.2.2 env0⟩
  rw [heq]
  exact congrArg some h1
